import Mathlib

/-!
Verification of the AI-Council deliberation orchestrator.

The definitions below are a shallow embedding of the TypeScript source:
the turn-scheduling loop, termination detection, per-node fallback
handling, the synthesis stage and the session state machine from
src/constants.tsx, together with the gateway helpers from
src/services/geminiService.ts.  Remote model calls are modelled as
oracles (explicit outcome-valued functions) passed in as parameters;
everything else follows the source line by line.
-/

namespace AICouncil

/-! ## JavaScript string primitives

The source manipulates strings with String.prototype.replace (which,
given a string pattern, replaces only the FIRST occurrence),
String.prototype.includes, String.prototype.trim and
String.prototype.toLowerCase.  They are embedded here on the character
list underlying a string. -/

/-- JS String.replace with a string pattern: replaces only the FIRST
occurrence of the pattern, scanning left to right; if the pattern does
not occur the list is returned unchanged. -/
def replaceFirstL (pat repl : List Char) : List Char → List Char
  | [] => []
  | c :: rest =>
    if pat.isPrefixOf (c :: rest) then repl ++ (c :: rest).drop pat.length
    else c :: replaceFirstL pat repl rest

/-- JS String.includes: true when the pattern occurs as a contiguous
substring. -/
def containsL (pat : List Char) : List Char → Bool
  | [] => pat.isEmpty
  | c :: rest => pat.isPrefixOf (c :: rest) || containsL pat rest

/-- JS String.trim: removes whitespace from both ends. -/
def trimL (s : List Char) : List Char :=
  List.rdropWhile Char.isWhitespace (List.dropWhile Char.isWhitespace s)

/-- String-level wrapper of `trimL`. -/
def jsTrim (s : String) : String := ⟨trimL s.data⟩

/-- JS String.toLowerCase on the character list underlying a string. -/
def jsToLower (s : String) : String := ⟨s.data.map Char.toLower⟩

/-- The termination control token scanned for in agent responses
(src/constants.tsx line 189). -/
def TERMINATE_SIGNAL : String := "[TERMINATE_DELIBERATION]"

/-- src/constants.tsx line 190: the content cleaner applied to every
gateway response before it is stored in the transcript, that is
text.replace(terminateSignal, "").trim(). -/
def cleanResponse (text : String) : String :=
  ⟨trimL (replaceFirstL TERMINATE_SIGNAL.data [] text.data)⟩

/-- src/constants.tsx line 204: text.includes(terminateSignal), the
termination check evaluated on the raw response text. -/
def includesToken (text : String) : Bool :=
  containsL TERMINATE_SIGNAL.data text.data

/-- JS truthiness-based defaulting `t || dflt` for an optional string:
undefined and the empty string are falsy. -/
def jsOrString (t : Option String) (dflt : String) : String :=
  match t with
  | some s => if s = "" then dflt else s
  | none => dflt

/-- JS String.padStart(n, c): pads the string on the left with the pad
character up to the target length. -/
def jsPadStart (n : Nat) (c : Char) (s : String) : String :=
  ⟨List.replicate (n - s.length) c ++ s.data⟩

/-! ## Data model (src/types.ts) -/

/-- src/types.ts: the web part of a grounding chunk. -/
structure GroundingWeb where
  uri : String
  title : String
deriving DecidableEq, Repr

/-- src/types.ts: GroundingChunk, a citation record with an optional
web field. -/
structure GroundingChunk where
  web : Option GroundingWeb
deriving DecidableEq, Repr

/-- src/types.ts: DialogueEntry, one transcript entry. -/
structure DialogueEntry where
  authorId : String
  authorName : String
  content : String
  timestamp : Nat
  isHuman : Option Bool
  grounding : Option (List GroundingChunk)
deriving DecidableEq, Repr

/-- src/types.ts: DeliberationStatus. -/
inductive DeliberationStatus where
  | idle
  | running
  | paused
  | concluded
  | awaiting_approval
deriving DecidableEq, Repr

/-- src/types.ts: AIInstance, one council agent. -/
structure AIInstance where
  id : String
  name : String
  color : String
  borderColor : String
  model : String
deriving DecidableEq, Repr

/-! ## Roster constants (src/constants.tsx lines 13 to 27) -/

/-- src/constants.tsx lines 13 to 19: the accent color cycle. -/
def COLORS : List String :=
  ["text-red-500", "text-orange-500", "text-yellow-500", "text-green-500",
   "text-blue-500", "text-purple-500", "text-pink-500", "text-cyan-500",
   "text-emerald-500", "text-amber-500", "text-indigo-500", "text-lime-500",
   "text-rose-500", "text-teal-500", "text-violet-500", "text-fuchsia-500",
   "text-sky-500"]

/-- The designated low-cost fallback model
(src/constants.tsx lines 26 and 708). -/
def FALLBACK_MODEL : String := "gemini-flash-lite-latest"

/-- src/constants.tsx lines 21 to 27: the fixed roster of 50 potential
council agents; agent i+1 has id (i+1).toString(), a zero-padded display
name, a cyclic accent color and the fallback model as the initial model
assignment. -/
def ALL_POTENTIAL_INSTANCES : List AIInstance :=
  (List.range 50).map fun i =>
    { id := toString (i + 1)
      name := "INSTANCE_" ++ jsPadStart 2 '0' (toString (i + 1))
      color := COLORS.getD (i % COLORS.length) ""
      borderColor :=
        ⟨replaceFirstL "text-".data "border-".data
          (COLORS.getD (i % COLORS.length) "").data⟩
      model := FALLBACK_MODEL }

/-! ## Model Gateway oracles

A remote call is an opaque effect: invoked with a model id and a
configuration, it either throws or returns a response whose text field
may be absent.  A call environment records, for every possible call,
its outcome. -/

/-- Outcome of one remote generateContent call: the call either throws
or replies with an optional text and optional grounding chunks. -/
inductive CallOutcome where
  | throw
  | reply (text : Option String) (grounding : Option (List GroundingChunk))
deriving DecidableEq, Repr

/-- A record of one gateway call made by getAIResponse: which model was
invoked and whether the googleSearch tool was enabled. -/
structure GatewayCallRec where
  model : String
  searchEnabled : Bool
deriving DecidableEq, Repr

/-- src/constants.tsx lines 668 to 723 (the full getAIResponse variant):
calls the gateway on the agents assigned model with the search tool
enabled; on success returns the response text (defaulted when absent)
with its grounding.  On a thrown error, if the agent is not already on
the designated fallback model, retries exactly once on the fallback
model with tools emptied, returning the fallback text tagged with
" (Fallback Node Protocol)" or, if the retry also throws, a marked
failure text; an agent already on the fallback model yields the marked
failure text directly.  The second component records every call made.
The function always returns a value: no error propagates to the caller. -/
def getAIResponse (env : String → Bool → CallOutcome) (inst : AIInstance) :
    (String × Option (List GroundingChunk)) × List GatewayCallRec :=
  match env inst.model true with
  | .reply t g =>
      ((jsOrString t "No analytical response generated.", g),
       [⟨inst.model, true⟩])
  | .throw =>
      if inst.model ≠ FALLBACK_MODEL then
        match env FALLBACK_MODEL false with
        | .reply t _ =>
            ((jsOrString t "Node fallback failed." ++ " (Fallback Node Protocol)",
              none),
             [⟨inst.model, true⟩, ⟨FALLBACK_MODEL, false⟩])
        | .throw =>
            (("Protocol failure on node: " ++ inst.name, none),
             [⟨inst.model, true⟩, ⟨FALLBACK_MODEL, false⟩])
      else
        (("Error: Communication link severed for node " ++ inst.name, none),
         [⟨inst.model, true⟩])

/-- src/constants.tsx lines 644 to 666: the topic refinement step.  The
refinement call either throws or replies; its outcome is the oracle
argument.  On success the trimmed text is used when truthy, otherwise
the raw topic is returned; a thrown error also falls back to the raw
topic, so refinement never fails. -/
def promptEngineerTopic (eng : Option (Option String)) (rawTopic : String) :
    String :=
  match eng with
  | none => rawTopic
  | some none => rawTopic
  | some (some t) => if jsTrim t = "" then rawTopic else jsTrim t

/-! ## Synthesis stage (src/constants.tsx lines 42 to 49 and 725 to 750) -/

/-- src/constants.tsx lines 42 to 49: the synthesis prompt template. -/
def SYNTHESIS_PROMPT (topic historyText : String) : String :=
  "\nTopic: " ++ topic ++ "\nHistory: " ++ historyText ++
  "\n\nAs the final supervisor instance, synthesize the entire deliberation above into the \"Best Possible Response\". \nBe definitive, objective, and comprehensive. Ensure the final result represents the peak of the collective reasoning provided by the instances.\nFormat: Start with \"FINAL VERDICT:\" followed by the synthesized conclusion.\n"

/-- src/constants.tsx line 727: the transcript rendered as
name: content pairs joined by two newlines, in transcript order. -/
def synthHistoryText (history : List DialogueEntry) : String :=
  String.intercalate "\n\n" (history.map fun h => h.authorName ++ ": " ++ h.content)

/-- JS truthiness of a synthesis call outcome `response && response.text`:
yields the text when the call did not throw and the text is present and
non-empty. -/
def truthyText (r : Option (Option String)) : Option String :=
  match r with
  | some (some t) => if t = "" then none else some t
  | some none => none
  | none => none

/-- src/constants.tsx lines 731 to 749: the candidate iteration of
getFinalSynthesis.  Attempts each model of the priority list in order
with the fixed prompt; a model whose call throws or returns an empty or
absent text is skipped; the first model returning non-empty text wins.
If every candidate is exhausted an error is thrown.  The second
component records the calls made as (model, prompt) pairs. -/
def getFinalSynthesisGo (env : String → String → Option (Option String))
    (prompt : String) :
    List String → Except String (String × String) × List (String × String)
  | [] => (.error "All available synthesis models failed to respond.", [])
  | m :: rest =>
    match truthyText (env m prompt) with
    | some t => (.ok (t, m), [(m, prompt)])
    | none =>
      ((getFinalSynthesisGo env prompt rest).1,
       (m, prompt) :: (getFinalSynthesisGo env prompt rest).2)

/-- src/constants.tsx lines 725 to 750: getFinalSynthesis builds one
prompt from the topic and the two-newline-joined transcript and attempts
each model of the priority list in order until one returns non-empty
text. -/
def getFinalSynthesis (env : String → String → Option (Option String))
    (priority : List String) (topic : String) (history : List DialogueEntry) :
    Except String (String × String) × List (String × String) :=
  getFinalSynthesisGo env (SYNTHESIS_PROMPT topic (synthHistoryText history))
    priority

/-! ## The deliberation state machine (src/constants.tsx lines 57 to 244)

The App component holds the orchestration state in React state hooks and
refs; it is embedded as an explicit record.  Observable mutations
(status changes, active-agent pointer updates, gateway calls) are also
emitted as an event trace so that ordering properties can be stated. -/

/-- The mutable session state of the App component: React state and refs
of src/constants.tsx lines 58 to 81. -/
structure SessionState where
  topicInput : String
  topic : String
  history : List DialogueEntry
  status : DeliberationStatus
  activeInstanceId : Option String
  verdict : Option String
  instanceCount : Nat
  instances : List AIInstance
  synthesisModel : String
  isEngineering : Bool
  isDevMenuOpen : Bool
  isRunning : Bool
  turnCount : Nat
  optimizedTopic : String
deriving Repr

/-- Observable events of one session run, in program order. -/
inductive Ev where
  | setStatus (s : DeliberationStatus)
  | setActive (a : Option String)
  | engineerStart
  | engineerEnd
  | turnCall (turn : Nat) (instanceId : String) (topic : String)
  | appendEntry
  | synthCall
deriving DecidableEq, Repr

/-- The turn cap of the deliberation loop,
src/constants.tsx line 180: Math.max(instanceCount * 2, 20). -/
def MAX_TURNS (instanceCount : Nat) : Nat := max (instanceCount * 2) 20

/-- The value of an out-of-range roster access; never reached when the
council size is within bounds and the roster is large enough. -/
def defaultInstance : AIInstance := ⟨"", "", "", "", ""⟩

/-- The value of an out-of-range transcript access in theorem
statements. -/
def defaultEntry : DialogueEntry := ⟨"", "", "", 0, none, none⟩

/-- Result of the deliberation while loop: final transcript, final turn
counter, last active-agent pointer, emitted events, and the
(transcript length, turn counter) snapshot taken immediately after each
completed turn. -/
structure LoopOut where
  hist : List DialogueEntry
  cnt : Nat
  lastActive : Option String
  events : List Ev
  snaps : List (Nat × Nat)
deriving Repr

/-- One-step body of the deliberation while loop of
src/constants.tsx lines 183 to 209, recursing on an explicit iteration
budget.  While the turn counter is below the cap: select the acting
agent by round-robin indexing into the active roster slice, expose it
as the active agent, invoke the gateway (the oracle resp gives the raw
text and grounding of turn t; getAIResponse never throws), strip the
termination token and trim, append the entry, increment the counter,
and stop early when the RAW response text contains the token.  The
budget only bounds the recursion; the while condition is the real
guard, and the budget never runs out when it starts at cap - counter
because every iteration increments the counter. -/
def loopAux (active : List AIInstance) (n : Nat) (topic : String)
    (resp : Nat → String × Option (List GroundingChunk)) (time : Nat → Nat) :
    Nat → List DialogueEntry → Nat → Option String → LoopOut
  | 0, hist, cnt, act => ⟨hist, cnt, act, [], []⟩
  | fuel + 1, hist, cnt, act =>
    if cnt < MAX_TURNS n then
      let inst := active.getD (cnt % n) defaultInstance
      let entry : DialogueEntry :=
        ⟨inst.id, inst.name, cleanResponse (resp cnt).1, time cnt, none,
         (resp cnt).2⟩
      if includesToken (resp cnt).1 then
        ⟨hist ++ [entry], cnt + 1, some inst.id,
         [.setActive (some inst.id), .turnCall cnt inst.id topic, .appendEntry],
         [(hist.length + 1, cnt + 1)]⟩
      else
        let r := loopAux active n topic resp time fuel (hist ++ [entry])
          (cnt + 1) (some inst.id)
        ⟨r.hist, r.cnt, r.lastActive,
         [.setActive (some inst.id), .turnCall cnt inst.id topic, .appendEntry]
           ++ r.events,
         (hist.length + 1, cnt + 1) :: r.snaps⟩
    else ⟨hist, cnt, act, [], []⟩

/-- The deliberation while loop (src/constants.tsx lines 183 to 209),
entered with the iteration budget it can never exhaust. -/
def loopGo (active : List AIInstance) (n : Nat) (topic : String)
    (resp : Nat → String × Option (List GroundingChunk)) (time : Nat → Nat)
    (hist : List DialogueEntry) (cnt : Nat) (act : Option String) : LoopOut :=
  loopAux active n topic resp time (MAX_TURNS n - cnt) hist cnt act

/-- src/constants.tsx lines 219 to 233: finalizeSynthesis.  Sets status
running and the active pointer to the sentinel SYNT, performs the
synthesis call (its outcome is the oracle argument: a verdict string or
a thrown error), then on success stores the verdict and on a thrown
error stores the fixed critical-error verdict; both branches set status
concluded, and the finally block clears the active pointer and the
running flag. -/
def finalizeSynthesis (st : SessionState) (synth : Except Unit String) :
    SessionState × List Ev :=
  let evs : List Ev :=
    [.setStatus .running, .setActive (some "SYNT"), .synthCall,
     .setStatus .concluded, .setActive none]
  match synth with
  | .ok text =>
      ({ st with status := .concluded, verdict := some text,
                 activeInstanceId := none, isRunning := false }, evs)
  | .error _ =>
      ({ st with status := .concluded,
                 verdict := some "Critical error during synthesis phase.",
                 activeInstanceId := none, isRunning := false }, evs)

/-- src/constants.tsx lines 179 to 217: the loop function.  Runs the
deliberation while loop on the current session state (the active roster
is instances.slice(0, instanceCount), line 83) and then invokes
finalizeSynthesis exactly once. -/
def loopFn (st : SessionState)
    (resp : Nat → String × Option (List GroundingChunk)) (time : Nat → Nat)
    (synth : Except Unit String) : SessionState × List Ev :=
  let r := loopGo (st.instances.take st.instanceCount) st.instanceCount
    st.optimizedTopic resp time st.history st.turnCount st.activeInstanceId
  let st1 := { st with history := r.hist, turnCount := r.cnt,
                       activeInstanceId := r.lastActive }
  let fin := finalizeSynthesis st1 synth
  (fin.1, r.events ++ fin.2)

/-- src/constants.tsx lines 161 to 174: the state right after the
session-start mutations and the topic-refinement step of runExperiment:
running flag raised, verdict cleared, transcript cleared, turn counter
reset to 0, status running, topic captured and input cleared, and the
refined topic stored with the engineering flag lowered again. -/
def startedState (st : SessionState) (eng : Option (Option String)) :
    SessionState :=
  { st with
    isRunning := true
    verdict := none
    history := []
    turnCount := 0
    status := .running
    topic := st.topicInput
    topicInput := ""
    optimizedTopic := promptEngineerTopic eng st.topicInput
    isEngineering := false }

/-- src/constants.tsx lines 152 to 177 composed with the loop: the
runExperiment start entry point.  A re-entrant start or a whitespace
topic is a no-op; the reserved topic 5090 giveaway (after trim and
toLowerCase) only opens the dev menu; otherwise the session fields are
reset, status becomes running, the topic refinement completes (oracle
eng) and only then the turn loop and synthesis run. -/
def runExperiment (st : SessionState) (eng : Option (Option String))
    (resp : Nat → String × Option (List GroundingChunk)) (time : Nat → Nat)
    (synth : Except Unit String) : SessionState × List Ev :=
  if st.isRunning || jsTrim st.topicInput = "" then (st, [])
  else if jsToLower (jsTrim st.topicInput) = "5090 giveaway" then
    ({ st with topicInput := "", isDevMenuOpen := true }, [])
  else
    let res := loopFn (startedState st eng) resp time synth
    (res.1, [Ev.setStatus .running, Ev.engineerStart, Ev.engineerEnd] ++ res.2)

/-- src/constants.tsx lines 235 to 244: resetExperiment discards all
session state. -/
def resetExperiment (st : SessionState) : SessionState :=
  { st with history := [], turnCount := 0, verdict := none, status := .idle,
            topic := "", activeInstanceId := none, isRunning := false }

/-! ## Lemmas about the deliberation loop -/

/-- The transcript entry produced by turn cnt of the loop. -/
def turnEntry (active : List AIInstance) (n : Nat)
    (resp : Nat → String × Option (List GroundingChunk)) (time : Nat → Nat)
    (cnt : Nat) : DialogueEntry :=
  ⟨(active.getD (cnt % n) defaultInstance).id,
   (active.getD (cnt % n) defaultInstance).name,
   cleanResponse (resp cnt).1, time cnt, none, (resp cnt).2⟩

/-- The events emitted by turn cnt of the loop. -/
def turnEvents (active : List AIInstance) (n : Nat) (topic : String)
    (cnt : Nat) : List Ev :=
  [.setActive (some (active.getD (cnt % n) defaultInstance).id),
   .turnCall cnt (active.getD (cnt % n) defaultInstance).id topic,
   .appendEntry]

/-! ## Sample inputs used by witnesses -/

/-- A response oracle that never carries the termination token. -/
def sampleResp : Nat → String × Option (List GroundingChunk) :=
  fun _ => ("All options considered.", none)

/-- A response oracle whose turn 2 is the first to carry the
termination token. -/
def sampleRespTok : Nat → String × Option (List GroundingChunk) :=
  fun t =>
    if t = 2 then ("Consensus reached. [TERMINATE_DELIBERATION]", none)
    else ("Further analysis needed.", none)

/-- A sample timestamp oracle. -/
def sampleTime : Nat → Nat := fun t => t

/-- A fresh idle session with council size 4 and the full roster. -/
def sampleState : SessionState :=
  { topicInput := "How should the grid be optimized?", topic := "",
    history := [], status := .idle, activeInstanceId := none, verdict := none,
    instanceCount := 4, instances := ALL_POTENTIAL_INSTANCES,
    synthesisModel := "gemini-3-pro-preview", isEngineering := false,
    isDevMenuOpen := false, isRunning := false, turnCount := 0,
    optimizedTopic := "" }

/-- The idle session holding the reserved easter-egg topic. -/
def giveawayState : SessionState :=
  { sampleState with topicInput := "5090 giveaway" }

/-- An agent assigned a model different from the fallback model. -/
def sampleInstance : AIInstance :=
  { id := "3", name := "INSTANCE_03", color := "", borderColor := "",
    model := "gemini-3-pro-preview" }

/-- A call environment in which every remote call throws. -/
def sampleEnvThrow : String → Bool → CallOutcome := fun _ _ => .throw

/-- A sample synthesis priority list. -/
def samplePriority : List String :=
  ["gemini-3-pro-preview", "gemini-2.5-pro", "gemini-flash-lite-latest"]

/-- A synthesis call environment in which only the second candidate
returns non-empty text. -/
def sampleSynthEnv : String → String → Option (Option String) :=
  fun m _ =>
    if m = "gemini-2.5-pro" then some (some "FINAL VERDICT: proceed.")
    else none

theorem loopGo_eq_stop (active n topic resp time hist cnt act)
    (h : ¬ cnt < MAX_TURNS n) :
    loopGo active n topic resp time hist cnt act = ⟨hist, cnt, act, [], []⟩ := by
  rw [loopGo, Nat.sub_eq_zero_of_le (Nat.le_of_not_lt h)]
  rfl

theorem loopGo_eq_tok (active n topic resp time hist cnt act)
    (h : cnt < MAX_TURNS n) (ht : includesToken (resp cnt).1 = true) :
    loopGo active n topic resp time hist cnt act =
      ⟨hist ++ [turnEntry active n resp time cnt], cnt + 1,
       some (active.getD (cnt % n) defaultInstance).id,
       turnEvents active n topic cnt, [(hist.length + 1, cnt + 1)]⟩ := by
  rw [loopGo, show MAX_TURNS n - cnt = (MAX_TURNS n - (cnt + 1)) + 1 from by omega]
  simp [loopAux, h, ht, turnEntry, turnEvents]

theorem loopGo_eq_cont (active n topic resp time hist cnt act)
    (h : cnt < MAX_TURNS n) (ht : includesToken (resp cnt).1 = false) :
    loopGo active n topic resp time hist cnt act =
      let r := loopGo active n topic resp time
        (hist ++ [turnEntry active n resp time cnt]) (cnt + 1)
        (some (active.getD (cnt % n) defaultInstance).id)
      ⟨r.hist, r.cnt, r.lastActive, turnEvents active n topic cnt ++ r.events,
       (hist.length + 1, cnt + 1) :: r.snaps⟩ := by
  rw [loopGo, show MAX_TURNS n - cnt = (MAX_TURNS n - (cnt + 1)) + 1 from by omega]
  simp [loopGo, loopAux, h, ht, turnEntry, turnEvents]

theorem loopGo_cnt_stop (active n topic resp time hist cnt act)
    (h : ¬ cnt < MAX_TURNS n) :
    (loopGo active n topic resp time hist cnt act).cnt = cnt := by
  rw [loopGo_eq_stop active n topic resp time hist cnt act h]

theorem loopGo_hist_stop (active n topic resp time hist cnt act)
    (h : ¬ cnt < MAX_TURNS n) :
    (loopGo active n topic resp time hist cnt act).hist = hist := by
  rw [loopGo_eq_stop active n topic resp time hist cnt act h]

theorem loopGo_events_stop (active n topic resp time hist cnt act)
    (h : ¬ cnt < MAX_TURNS n) :
    (loopGo active n topic resp time hist cnt act).events = [] := by
  rw [loopGo_eq_stop active n topic resp time hist cnt act h]

theorem loopGo_snaps_stop (active n topic resp time hist cnt act)
    (h : ¬ cnt < MAX_TURNS n) :
    (loopGo active n topic resp time hist cnt act).snaps = [] := by
  rw [loopGo_eq_stop active n topic resp time hist cnt act h]

theorem loopGo_cnt_tok (active n topic resp time hist cnt act)
    (h : cnt < MAX_TURNS n) (ht : includesToken (resp cnt).1 = true) :
    (loopGo active n topic resp time hist cnt act).cnt = cnt + 1 := by
  rw [loopGo_eq_tok active n topic resp time hist cnt act h ht]

theorem loopGo_hist_tok (active n topic resp time hist cnt act)
    (h : cnt < MAX_TURNS n) (ht : includesToken (resp cnt).1 = true) :
    (loopGo active n topic resp time hist cnt act).hist
      = hist ++ [turnEntry active n resp time cnt] := by
  rw [loopGo_eq_tok active n topic resp time hist cnt act h ht]

theorem loopGo_events_tok (active n topic resp time hist cnt act)
    (h : cnt < MAX_TURNS n) (ht : includesToken (resp cnt).1 = true) :
    (loopGo active n topic resp time hist cnt act).events
      = turnEvents active n topic cnt := by
  rw [loopGo_eq_tok active n topic resp time hist cnt act h ht]

theorem loopGo_snaps_tok (active n topic resp time hist cnt act)
    (h : cnt < MAX_TURNS n) (ht : includesToken (resp cnt).1 = true) :
    (loopGo active n topic resp time hist cnt act).snaps
      = [(hist.length + 1, cnt + 1)] := by
  rw [loopGo_eq_tok active n topic resp time hist cnt act h ht]

theorem loopGo_cnt_cont (active n topic resp time hist cnt act)
    (h : cnt < MAX_TURNS n) (ht : includesToken (resp cnt).1 = false) :
    (loopGo active n topic resp time hist cnt act).cnt
      = (loopGo active n topic resp time
          (hist ++ [turnEntry active n resp time cnt]) (cnt + 1)
          (some (active.getD (cnt % n) defaultInstance).id)).cnt := by
  rw [loopGo_eq_cont active n topic resp time hist cnt act h ht]

theorem loopGo_hist_cont (active n topic resp time hist cnt act)
    (h : cnt < MAX_TURNS n) (ht : includesToken (resp cnt).1 = false) :
    (loopGo active n topic resp time hist cnt act).hist
      = (loopGo active n topic resp time
          (hist ++ [turnEntry active n resp time cnt]) (cnt + 1)
          (some (active.getD (cnt % n) defaultInstance).id)).hist := by
  rw [loopGo_eq_cont active n topic resp time hist cnt act h ht]

theorem loopGo_events_cont (active n topic resp time hist cnt act)
    (h : cnt < MAX_TURNS n) (ht : includesToken (resp cnt).1 = false) :
    (loopGo active n topic resp time hist cnt act).events
      = turnEvents active n topic cnt
        ++ (loopGo active n topic resp time
            (hist ++ [turnEntry active n resp time cnt]) (cnt + 1)
            (some (active.getD (cnt % n) defaultInstance).id)).events := by
  rw [loopGo_eq_cont active n topic resp time hist cnt act h ht]

theorem loopGo_snaps_cont (active n topic resp time hist cnt act)
    (h : cnt < MAX_TURNS n) (ht : includesToken (resp cnt).1 = false) :
    (loopGo active n topic resp time hist cnt act).snaps
      = (hist.length + 1, cnt + 1)
        :: (loopGo active n topic resp time
            (hist ++ [turnEntry active n resp time cnt]) (cnt + 1)
            (some (active.getD (cnt % n) defaultInstance).id)).snaps := by
  rw [loopGo_eq_cont active n topic resp time hist cnt act h ht]

/-- Master invariant of the loop: starting from a transcript whose
length equals the turn counter, the loop keeps that invariant, never
decreases the counter, never exceeds the cap, preserves the existing
transcript prefix and writes exactly the round-robin entry of each
executed turn. -/
theorem loopGo_spec (active n topic resp time) :
    ∀ hist cnt act, hist.length = cnt →
      (loopGo active n topic resp time hist cnt act).hist.length
          = (loopGo active n topic resp time hist cnt act).cnt ∧
      cnt ≤ (loopGo active n topic resp time hist cnt act).cnt ∧
      (loopGo active n topic resp time hist cnt act).cnt ≤ max (MAX_TURNS n) cnt ∧
      (∀ i, i < cnt →
        (loopGo active n topic resp time hist cnt act).hist.getD i defaultEntry
          = hist.getD i defaultEntry) ∧
      (∀ i, cnt ≤ i → i < (loopGo active n topic resp time hist cnt act).cnt →
        (loopGo active n topic resp time hist cnt act).hist.getD i defaultEntry
          = turnEntry active n resp time i) := by
  suffices H : ∀ k cnt hist act, MAX_TURNS n - cnt ≤ k → hist.length = cnt →
      (loopGo active n topic resp time hist cnt act).hist.length
          = (loopGo active n topic resp time hist cnt act).cnt ∧
      cnt ≤ (loopGo active n topic resp time hist cnt act).cnt ∧
      (loopGo active n topic resp time hist cnt act).cnt ≤ max (MAX_TURNS n) cnt ∧
      (∀ i, i < cnt →
        (loopGo active n topic resp time hist cnt act).hist.getD i defaultEntry
          = hist.getD i defaultEntry) ∧
      (∀ i, cnt ≤ i → i < (loopGo active n topic resp time hist cnt act).cnt →
        (loopGo active n topic resp time hist cnt act).hist.getD i defaultEntry
          = turnEntry active n resp time i) by
    intro hist cnt act hlen
    exact H (MAX_TURNS n - cnt) cnt hist act (le_refl _) hlen
  intro k
  induction k with
  | zero =>
    intro cnt hist act hk hlen
    have h : ¬ cnt < MAX_TURNS n := by omega
    rw [loopGo_cnt_stop active n topic resp time hist cnt act h,
      loopGo_hist_stop active n topic resp time hist cnt act h]
    exact ⟨hlen, le_refl _, le_max_right _ _, fun i _ => rfl,
      fun i h1 h2 => by omega⟩
  | succ k ih =>
    intro cnt hist act hk hlen
    by_cases h : cnt < MAX_TURNS n
    · have hlen' : (hist ++ [turnEntry active n resp time cnt]).length = cnt + 1 := by
        simp [hlen]
      cases htok : includesToken (resp cnt).1 with
      | true =>
        rw [loopGo_cnt_tok active n topic resp time hist cnt act h htok,
          loopGo_hist_tok active n topic resp time hist cnt act h htok]
        refine ⟨hlen', by omega, by omega, ?_, ?_⟩
        · intro i hi
          exact List.getD_append _ _ _ _ (by omega)
        · intro i h1 h2
          have hieq : i = cnt := by omega
          subst hieq
          rw [← hlen, List.getD_append_right _ _ _ _ (le_refl _)]
          simp
      | false =>
        obtain ⟨ih1, ih2, ih3, ih4, ih5⟩ := ih (cnt + 1)
          (hist ++ [turnEntry active n resp time cnt])
          (some (active.getD (cnt % n) defaultInstance).id) (by omega) hlen'
        rw [loopGo_cnt_cont active n topic resp time hist cnt act h htok,
          loopGo_hist_cont active n topic resp time hist cnt act h htok]
        refine ⟨ih1, by omega, by omega, ?_, ?_⟩
        · intro i hi
          rw [ih4 i (by omega)]
          exact List.getD_append _ _ _ _ (by omega)
        · intro i h1 h2
          rcases Nat.eq_or_lt_of_le h1 with heq | hlt
          · rw [← heq] at h2 ⊢
            rw [ih4 cnt (by omega), ← hlen,
              List.getD_append_right _ _ _ _ (le_refl _)]
            simp
          · exact ih5 i hlt h2
    · rw [loopGo_cnt_stop active n topic resp time hist cnt act h,
        loopGo_hist_stop active n topic resp time hist cnt act h]
      exact ⟨hlen, le_refl _, le_max_right _ _, fun i _ => rfl,
        fun i h1 h2 => by omega⟩

/-- The turn counter never decreases, for any starting state. -/
theorem loopGo_cnt_le (active n topic resp time) :
    ∀ hist cnt act, cnt ≤ (loopGo active n topic resp time hist cnt act).cnt := by
  suffices H : ∀ k cnt hist act, MAX_TURNS n - cnt ≤ k →
      cnt ≤ (loopGo active n topic resp time hist cnt act).cnt by
    intro hist cnt act
    exact H (MAX_TURNS n - cnt) cnt hist act (le_refl _)
  intro k
  induction k with
  | zero =>
    intro cnt hist act hk
    have h : ¬ cnt < MAX_TURNS n := by omega
    rw [loopGo_cnt_stop active n topic resp time hist cnt act h]
  | succ k ih =>
    intro cnt hist act hk
    by_cases h : cnt < MAX_TURNS n
    · cases htok : includesToken (resp cnt).1 with
      | true =>
        rw [loopGo_cnt_tok active n topic resp time hist cnt act h htok]
        omega
      | false =>
        rw [loopGo_cnt_cont active n topic resp time hist cnt act h htok]
        have := ih (cnt + 1) (hist ++ [turnEntry active n resp time cnt])
          (some (active.getD (cnt % n) defaultInstance).id) (by omega)
        omega
    · rw [loopGo_cnt_stop active n topic resp time hist cnt act h]

/-- Snapshot characterization: the loop takes one snapshot per executed
turn, and the snapshot of the j-th executed turn is
(initial transcript length + j + 1, initial counter + j + 1): each
iteration appends exactly one entry and increments the counter exactly
once. -/
theorem loopGo_snaps_spec (active n topic resp time) :
    ∀ hist cnt act,
      (loopGo active n topic resp time hist cnt act).snaps.length
          = (loopGo active n topic resp time hist cnt act).cnt - cnt ∧
      ∀ j, j < (loopGo active n topic resp time hist cnt act).snaps.length →
        (loopGo active n topic resp time hist cnt act).snaps.getD j (0, 0)
          = (hist.length + j + 1, cnt + j + 1) := by
  suffices H : ∀ k cnt hist act, MAX_TURNS n - cnt ≤ k →
      (loopGo active n topic resp time hist cnt act).snaps.length
          = (loopGo active n topic resp time hist cnt act).cnt - cnt ∧
      ∀ j, j < (loopGo active n topic resp time hist cnt act).snaps.length →
        (loopGo active n topic resp time hist cnt act).snaps.getD j (0, 0)
          = (hist.length + j + 1, cnt + j + 1) by
    intro hist cnt act
    exact H (MAX_TURNS n - cnt) cnt hist act (le_refl _)
  intro k
  induction k with
  | zero =>
    intro cnt hist act hk
    have h : ¬ cnt < MAX_TURNS n := by omega
    rw [loopGo_cnt_stop active n topic resp time hist cnt act h,
      loopGo_snaps_stop active n topic resp time hist cnt act h]
    exact ⟨by simp, fun j hj => by simp at hj⟩
  | succ k ih =>
    intro cnt hist act hk
    by_cases h : cnt < MAX_TURNS n
    · cases htok : includesToken (resp cnt).1 with
      | true =>
        rw [loopGo_cnt_tok active n topic resp time hist cnt act h htok,
          loopGo_snaps_tok active n topic resp time hist cnt act h htok]
        refine ⟨by simp, ?_⟩
        intro j hj
        simp only [List.length_singleton] at hj
        have hj0 : j = 0 := by omega
        subst hj0
        rfl
      | false =>
        obtain ⟨ih1, ih2⟩ := ih (cnt + 1)
          (hist ++ [turnEntry active n resp time cnt])
          (some (active.getD (cnt % n) defaultInstance).id) (by omega)
        have hmono := loopGo_cnt_le active n topic resp time
          (hist ++ [turnEntry active n resp time cnt]) (cnt + 1)
          (some (active.getD (cnt % n) defaultInstance).id)
        rw [loopGo_cnt_cont active n topic resp time hist cnt act h htok,
          loopGo_snaps_cont active n topic resp time hist cnt act h htok]
        refine ⟨by simp only [List.length_cons, ih1]; omega, ?_⟩
        intro j hj
        cases j with
        | zero => rfl
        | succ j =>
          simp only [List.length_cons] at hj
          have := ih2 j (by omega)
          simp only [List.getD_cons_succ, this, List.length_append,
            List.length_singleton]
          refine congrArg₂ Prod.mk (by omega) (by omega)
    · rw [loopGo_cnt_stop active n topic resp time hist cnt act h,
        loopGo_snaps_stop active n topic resp time hist cnt act h]
      exact ⟨by simp, fun j hj => by simp at hj⟩

/-- Every event emitted by the loop is an entry append, a round-robin
active-agent update, or a gateway turn call carrying the loop topic. -/
theorem loopGo_events_spec (active n topic resp time) :
    ∀ hist cnt act, ∀ e ∈ (loopGo active n topic resp time hist cnt act).events,
      e = Ev.appendEntry ∨
      ∃ i, cnt ≤ i ∧ i < MAX_TURNS n ∧
        (e = Ev.setActive (some (active.getD (i % n) defaultInstance).id) ∨
         e = Ev.turnCall i (active.getD (i % n) defaultInstance).id topic) := by
  suffices H : ∀ k cnt hist act, MAX_TURNS n - cnt ≤ k →
      ∀ e ∈ (loopGo active n topic resp time hist cnt act).events,
      e = Ev.appendEntry ∨
      ∃ i, cnt ≤ i ∧ i < MAX_TURNS n ∧
        (e = Ev.setActive (some (active.getD (i % n) defaultInstance).id) ∨
         e = Ev.turnCall i (active.getD (i % n) defaultInstance).id topic) by
    intro hist cnt act
    exact H (MAX_TURNS n - cnt) cnt hist act (le_refl _)
  intro k
  induction k with
  | zero =>
    intro cnt hist act hk e he
    have h : ¬ cnt < MAX_TURNS n := by omega
    rw [loopGo_events_stop active n topic resp time hist cnt act h] at he
    simp at he
  | succ k ih =>
    intro cnt hist act hk e he
    by_cases h : cnt < MAX_TURNS n
    · cases htok : includesToken (resp cnt).1 with
      | true =>
        rw [loopGo_events_tok active n topic resp time hist cnt act h htok] at he
        simp only [turnEvents, List.mem_cons, List.mem_singleton] at he
        rcases he with he | he | he | he
        · exact Or.inr ⟨cnt, le_refl _, h, Or.inl he⟩
        · exact Or.inr ⟨cnt, le_refl _, h, Or.inr he⟩
        · exact Or.inl he
        · simp at he
      | false =>
        rw [loopGo_events_cont active n topic resp time hist cnt act h htok]
          at he
        rw [List.mem_append] at he
        rcases he with he | he
        · simp only [turnEvents, List.mem_cons, List.mem_singleton] at he
          rcases he with he | he | he | he
          · exact Or.inr ⟨cnt, le_refl _, h, Or.inl he⟩
          · exact Or.inr ⟨cnt, le_refl _, h, Or.inr he⟩
          · exact Or.inl he
          · simp at he
        · rcases ih (cnt + 1) (hist ++ [turnEntry active n resp time cnt])
            (some (active.getD (cnt % n) defaultInstance).id) (by omega) e he
            with h1 | ⟨i, hi1, hi2, hi3⟩
          · exact Or.inl h1
          · exact Or.inr ⟨i, by omega, hi2, hi3⟩
    · rw [loopGo_events_stop active n topic resp time hist cnt act h] at he
      simp at he

/-- When no turn below the cap carries the termination token, the loop
runs until the cap. -/
theorem loopGo_cnt_noTok (active n topic resp time) :
    ∀ hist cnt act,
      (∀ i, cnt ≤ i → i < MAX_TURNS n → includesToken (resp i).1 = false) →
      (loopGo active n topic resp time hist cnt act).cnt
        = max (MAX_TURNS n) cnt := by
  suffices H : ∀ k cnt hist act, MAX_TURNS n - cnt ≤ k →
      (∀ i, cnt ≤ i → i < MAX_TURNS n → includesToken (resp i).1 = false) →
      (loopGo active n topic resp time hist cnt act).cnt
        = max (MAX_TURNS n) cnt by
    intro hist cnt act hno
    exact H (MAX_TURNS n - cnt) cnt hist act (le_refl _) hno
  intro k
  induction k with
  | zero =>
    intro cnt hist act hk hno
    have h : ¬ cnt < MAX_TURNS n := by omega
    rw [loopGo_cnt_stop active n topic resp time hist cnt act h]
    omega
  | succ k ih =>
    intro cnt hist act hk hno
    by_cases h : cnt < MAX_TURNS n
    · have htok : includesToken (resp cnt).1 = false := hno cnt (le_refl _) h
      rw [loopGo_cnt_cont active n topic resp time hist cnt act h htok]
      have := ih (cnt + 1) (hist ++ [turnEntry active n resp time cnt])
        (some (active.getD (cnt % n) defaultInstance).id) (by omega)
        (fun i h1 h2 => hno i (by omega) h2)
      omega
    · rw [loopGo_cnt_stop active n topic resp time hist cnt act h]
      omega

/-- When turn k is the first turn at or after the current counter whose
raw text carries the termination token and k is below the cap, the loop
stops right after executing turn k: the final counter is k + 1. -/
theorem loopGo_cnt_firstTok (active n topic resp time) :
    ∀ hist cnt act k, cnt ≤ k → k < MAX_TURNS n →
      includesToken (resp k).1 = true →
      (∀ i, cnt ≤ i → i < k → includesToken (resp i).1 = false) →
      (loopGo active n topic resp time hist cnt act).cnt = k + 1 := by
  suffices H : ∀ m cnt hist act k, MAX_TURNS n - cnt ≤ m → cnt ≤ k →
      k < MAX_TURNS n → includesToken (resp k).1 = true →
      (∀ i, cnt ≤ i → i < k → includesToken (resp i).1 = false) →
      (loopGo active n topic resp time hist cnt act).cnt = k + 1 by
    intro hist cnt act k h1 h2 h3 h4
    exact H (MAX_TURNS n - cnt) cnt hist act k (le_refl _) h1 h2 h3 h4
  intro m
  induction m with
  | zero =>
    intro cnt hist act k hm h1 h2 h3 h4
    omega
  | succ m ih =>
    intro cnt hist act k hm h1 h2 h3 h4
    have h : cnt < MAX_TURNS n := by omega
    by_cases hck : cnt = k
    · subst hck
      rw [loopGo_cnt_tok active n topic resp time hist cnt act h h3]
    · have htok : includesToken (resp cnt).1 = false :=
        h4 cnt (le_refl _) (by omega)
      rw [loopGo_cnt_cont active n topic resp time hist cnt act h htok]
      exact ih (cnt + 1) (hist ++ [turnEntry active n resp time cnt])
        (some (active.getD (cnt % n) defaultInstance).id) k (by omega)
        (by omega) h2 h3 (fun i hi1 hi2 => h4 i (by omega) hi2)

/-! ## Lemmas about the JS string primitives -/

/-- When the pattern does not occur in a list, replacing its first
occurrence changes nothing. -/
theorem replaceFirstL_id_of_not_contains (pat repl : List Char) :
    ∀ l, containsL pat l = false → replaceFirstL pat repl l = l := by
  intro l
  induction l with
  | nil => intro _; rfl
  | cons c rest ih =>
    intro h
    simp only [containsL, Bool.or_eq_false_iff] at h
    simp only [replaceFirstL, h.1, ih h.2, if_neg]
    simp [h.1]

/-- A list left fixed by dropWhile leaves every front portion of itself
fixed by dropWhile as well. -/
theorem dropWhile_eq_self_mono {α : Type} (p : α → Bool) {b a : List α}
    (hpre : b <+: a) (ha : List.dropWhile p a = a) :
    List.dropWhile p b = b := by
  rw [List.dropWhile_eq_self_iff] at ha ⊢
  intro hl
  have hla : 0 < a.length := lt_of_lt_of_le hl hpre.length_le
  have hna := ha hla
  have hget : b[0] = a[0] := hpre.getElem hl
  simp only [List.get_eq_getElem] at hna ⊢
  rw [hget]
  exact hna

/-- JS trim is idempotent. -/
theorem trimL_trimL (s : List Char) : trimL (trimL s) = trimL s := by
  unfold trimL
  have ha : List.dropWhile Char.isWhitespace
      (List.dropWhile Char.isWhitespace s)
      = List.dropWhile Char.isWhitespace s :=
    List.dropWhile_idempotent _ _
  have hpre := List.rdropWhile_prefix Char.isWhitespace
    (List.dropWhile Char.isWhitespace s)
  have hb := dropWhile_eq_self_mono Char.isWhitespace hpre ha
  rw [hb, List.rdropWhile_idempotent]

/-- On token-free input, the content cleaner only trims. -/
theorem cleanResponse_data_of_no_token (s : String)
    (h : containsL TERMINATE_SIGNAL.data s.data = false) :
    (cleanResponse s).data = trimL s.data := by
  unfold cleanResponse
  rw [replaceFirstL_id_of_not_contains _ _ _ h]

/-- When one application of the content cleaner already removed every
occurrence of the token, a second application changes nothing. -/
theorem cleanResponse_idem_of_no_token (s : String)
    (h : containsL TERMINATE_SIGNAL.data (cleanResponse s).data = false) :
    cleanResponse (cleanResponse s) = cleanResponse s := by
  have h1 : (cleanResponse s).data
      = trimL (replaceFirstL TERMINATE_SIGNAL.data [] s.data) := rfl
  show (⟨trimL (replaceFirstL TERMINATE_SIGNAL.data []
      (cleanResponse s).data)⟩ : String) = cleanResponse s
  rw [replaceFirstL_id_of_not_contains _ _ _ h, h1, trimL_trimL]
  rfl

/-! ## Lemmas about the roster -/

theorem ALL_POTENTIAL_INSTANCES_length : ALL_POTENTIAL_INSTANCES.length = 50 := by
  simp [ALL_POTENTIAL_INSTANCES]

/-- A round-robin access into the active slice of a roster stays inside
the roster. -/
theorem take_getD_mem (l : List AIInstance) (n i : Nat) (h0 : 0 < n)
    (hle : n ≤ l.length) :
    (l.take n).getD (i % n) defaultInstance ∈ l := by
  have hlen : (l.take n).length = n := by
    simp only [List.length_take]
    omega
  have hi : i % n < (l.take n).length := by
    rw [hlen]
    exact Nat.mod_lt _ h0
  rw [List.getD_eq_getElem _ _ hi]
  exact List.take_subset n l (List.getElem_mem _)

/-- The turn counter never exceeds the cap (or its starting value when
already past the cap), for any starting state. -/
theorem loopGo_cnt_ub (active n topic resp time) :
    ∀ hist cnt act,
      (loopGo active n topic resp time hist cnt act).cnt
        ≤ max (MAX_TURNS n) cnt := by
  suffices H : ∀ k cnt hist act, MAX_TURNS n - cnt ≤ k →
      (loopGo active n topic resp time hist cnt act).cnt
        ≤ max (MAX_TURNS n) cnt by
    intro hist cnt act
    exact H (MAX_TURNS n - cnt) cnt hist act (le_refl _)
  intro k
  induction k with
  | zero =>
    intro cnt hist act hk
    have h : ¬ cnt < MAX_TURNS n := by omega
    rw [loopGo_cnt_stop active n topic resp time hist cnt act h]
    omega
  | succ k ih =>
    intro cnt hist act hk
    by_cases h : cnt < MAX_TURNS n
    · cases htok : includesToken (resp cnt).1 with
      | true =>
        rw [loopGo_cnt_tok active n topic resp time hist cnt act h htok]
        omega
      | false =>
        rw [loopGo_cnt_cont active n topic resp time hist cnt act h htok]
        have := ih (cnt + 1) (hist ++ [turnEntry active n resp time cnt])
          (some (active.getD (cnt % n) defaultInstance).id) (by omega)
        omega
    · rw [loopGo_cnt_stop active n topic resp time hist cnt act h]
      omega

/-! ## Lemmas about loopFn and the synthesis stage -/

/-- The event trace of one loop-plus-synthesis run: the loop events
followed by the five finalizeSynthesis events, whatever the synthesis
outcome. -/
theorem loopFn_events (st : SessionState) (resp time synth) :
    (loopFn st resp time synth).2
      = (loopGo (st.instances.take st.instanceCount) st.instanceCount
          st.optimizedTopic resp time st.history st.turnCount
          st.activeInstanceId).events
        ++ [Ev.setStatus .running, Ev.setActive (some "SYNT"), Ev.synthCall,
            Ev.setStatus .concluded, Ev.setActive none] := by
  unfold loopFn finalizeSynthesis
  cases synth <;> rfl

/-- The state after one loop-plus-synthesis run: the counter and
transcript come from the loop and synthesis always concludes with the
active pointer cleared. -/
theorem loopFn_state (st : SessionState) (resp time synth) :
    (loopFn st resp time synth).1.turnCount
        = (loopGo (st.instances.take st.instanceCount) st.instanceCount
            st.optimizedTopic resp time st.history st.turnCount
            st.activeInstanceId).cnt
    ∧ (loopFn st resp time synth).1.activeInstanceId = none
    ∧ (loopFn st resp time synth).1.status = DeliberationStatus.concluded
    ∧ (loopFn st resp time synth).1.history
        = (loopGo (st.instances.take st.instanceCount) st.instanceCount
            st.optimizedTopic resp time st.history st.turnCount
            st.activeInstanceId).hist := by
  unfold loopFn finalizeSynthesis
  cases synth <;> exact ⟨rfl, rfl, rfl, rfl⟩

theorem synthGo_cons_some (env prompt m rest t)
    (h : truthyText (env m prompt) = some t) :
    getFinalSynthesisGo env prompt (m :: rest)
      = (Except.ok (t, m), [(m, prompt)]) := by
  simp [getFinalSynthesisGo, h]

theorem synthGo_cons_none (env prompt m rest)
    (h : truthyText (env m prompt) = none) :
    getFinalSynthesisGo env prompt (m :: rest)
      = ((getFinalSynthesisGo env prompt rest).1,
         (m, prompt) :: (getFinalSynthesisGo env prompt rest).2) := by
  simp [getFinalSynthesisGo, h]

/-- Every call made by the synthesis candidate iteration carries the
one fixed prompt. -/
theorem synthGo_calls (env prompt) :
    ∀ ps, ∀ c ∈ (getFinalSynthesisGo env prompt ps).2, c.2 = prompt := by
  intro ps
  induction ps with
  | nil => intro c hc; simp [getFinalSynthesisGo] at hc
  | cons m rest ih =>
    intro c hc
    cases htr : truthyText (env m prompt) with
    | some t =>
      rw [synthGo_cons_some env prompt m rest t htr] at hc
      simp only [List.mem_singleton] at hc
      rw [hc]
    | none =>
      rw [synthGo_cons_none env prompt m rest htr] at hc
      simp only [List.mem_cons] at hc
      rcases hc with hc | hc
      · rw [hc]
      · exact ih c hc

/-- First-success characterization of the candidate iteration: when the
k-th candidate is the first whose call is truthy, the iteration returns
its text paired with that model, having attempted exactly the first
k + 1 candidates in order. -/
theorem synthGo_first_success (env prompt) :
    ∀ ps k t, k < ps.length →
      truthyText (env (ps.getD k "") prompt) = some t →
      (∀ j, j < k → truthyText (env (ps.getD j "") prompt) = none) →
      (getFinalSynthesisGo env prompt ps).1 = Except.ok (t, ps.getD k "")
      ∧ (getFinalSynthesisGo env prompt ps).2.map Prod.fst = ps.take (k + 1) := by
  intro ps
  induction ps with
  | nil => intro k t hk; simp at hk
  | cons m rest ih =>
    intro k t hk hsucc hprev
    cases k with
    | zero =>
      simp only [List.getD_cons_zero] at hsucc ⊢
      rw [synthGo_cons_some env prompt m rest t hsucc]
      exact ⟨rfl, by simp⟩
    | succ k =>
      have h0 : truthyText (env m prompt) = none := by
        have := hprev 0 (Nat.succ_pos _)
        simpa using this
      rw [synthGo_cons_none env prompt m rest h0]
      obtain ⟨ih1, ih2⟩ := ih k t (by simpa using hk) (by simpa using hsucc)
        (fun j hj => by
          have := hprev (j + 1) (by omega)
          simpa using this)
      refine ⟨by simpa using ih1, ?_⟩
      simp only [List.map_cons, ih2, List.take_succ_cons]

/-- Exhaustion: when every candidate fails, the iteration throws the
fixed all-failed error. -/
theorem synthGo_all_fail (env prompt) :
    ∀ ps, (∀ j, j < ps.length → truthyText (env (ps.getD j "") prompt) = none) →
      (getFinalSynthesisGo env prompt ps).1
        = Except.error "All available synthesis models failed to respond." := by
  intro ps
  induction ps with
  | nil => intro _; rfl
  | cons m rest ih =>
    intro hall
    have h0 : truthyText (env m prompt) = none := by
      have := hall 0 (Nat.succ_pos _)
      simpa using this
    rw [synthGo_cons_none env prompt m rest h0]
    exact ih (fun j hj => by
      have := hall (j + 1) (by simpa using hj)
      simpa using this)

/-! ## Claims -/

/-- C1: for every council size n in [2,20], every topic, every response
oracle (so independent of any response content) and every turn index t
reached by the deliberation loop started on a fresh session, the entry
appended at turn t has the author id of the roster element at index
t mod n of the active roster slice. -/
theorem c1_round_robin (n : Nat) (topic : String)
    (resp : Nat → String × Option (List GroundingChunk)) (time : Nat → Nat)
    (h2 : 2 ≤ n) (h20 : n ≤ 20) :
    ∀ t, t < (loopGo (ALL_POTENTIAL_INSTANCES.take n) n topic resp time
        [] 0 none).cnt →
      ((loopGo (ALL_POTENTIAL_INSTANCES.take n) n topic resp time
          [] 0 none).hist.getD t defaultEntry).authorId
        = ((ALL_POTENTIAL_INSTANCES.take n).getD (t % n) defaultInstance).id := by
  intro t ht
  obtain ⟨-, -, -, -, h5⟩ :=
    loopGo_spec (ALL_POTENTIAL_INSTANCES.take n) n topic resp time [] 0 none rfl
  rw [h5 t (Nat.zero_le _) ht]
  rfl

/-- C1 witness: at council size 4 with a constant token-free oracle,
turn 5 is authored by roster element 5 mod 4 = 1, the agent with id 2. -/
theorem c1_round_robin_witness :
    ((loopGo (ALL_POTENTIAL_INSTANCES.take 4) 4 "T" sampleResp sampleTime
        [] 0 none).hist.getD 5 defaultEntry).authorId
      = ((ALL_POTENTIAL_INSTANCES.take 4).getD (5 % 4) defaultInstance).id
    ∧ ((ALL_POTENTIAL_INSTANCES.take 4).getD (5 % 4) defaultInstance).id = "2" :=
  ⟨c1_round_robin 4 "T" sampleResp sampleTime (by decide) (by decide) 5
    (by decide), by decide⟩

/-- C2: the turn cap equals max(2n, 20) for every council size; the loop
never executes more turns than the cap, whatever the gateway outcomes;
and for council size 4 with every call succeeding and no termination
token, the loop runs exactly 20 turns after which synthesis is invoked
exactly once. -/
theorem c2_turn_cap :
    (∀ n, MAX_TURNS n = max (2 * n) 20)
    ∧ (∀ st : SessionState, ∀ resp time synth, st.turnCount = 0 →
        (loopFn st resp time synth).1.turnCount ≤ MAX_TURNS st.instanceCount)
    ∧ (∀ st : SessionState, ∀ resp time synth, st.instanceCount = 4 →
        st.turnCount = 0 →
        (∀ i, i < MAX_TURNS 4 → includesToken (resp i).1 = false) →
        (loopFn st resp time synth).1.turnCount = 20
        ∧ (loopFn st resp time synth).2.count Ev.synthCall = 1) := by
  refine ⟨fun n => by simp [MAX_TURNS, Nat.mul_comm], ?_, ?_⟩
  · intro st resp time synth h0
    rw [(loopFn_state st resp time synth).1]
    have := loopGo_cnt_ub (st.instances.take st.instanceCount)
      st.instanceCount st.optimizedTopic resp time st.history st.turnCount
      st.activeInstanceId
    omega
  · intro st resp time synth h4 h0 hno
    constructor
    · rw [(loopFn_state st resp time synth).1]
      have := loopGo_cnt_noTok (st.instances.take st.instanceCount)
        st.instanceCount st.optimizedTopic resp time st.history st.turnCount
        st.activeInstanceId (fun i _ hi => hno i (h4 ▸ hi))
      rw [this, h0, h4]
      rfl
    · rw [loopFn_events st resp time synth, List.count_append]
      have hzero : (loopGo (st.instances.take st.instanceCount)
          st.instanceCount st.optimizedTopic resp time st.history st.turnCount
          st.activeInstanceId).events.count Ev.synthCall = 0 := by
        rw [List.count_eq_zero]
        intro hmem
        rcases loopGo_events_spec (st.instances.take st.instanceCount)
          st.instanceCount st.optimizedTopic resp time st.history st.turnCount
          st.activeInstanceId Ev.synthCall hmem with h | ⟨i, _, _, h | h⟩
          <;> simp at h
      rw [hzero]
      rfl

/-- C2 witness: the fresh size-4 session with a token-free oracle runs
exactly 20 turns and invokes synthesis once. -/
theorem c2_turn_cap_witness :
    (loopFn sampleState sampleResp sampleTime (Except.ok "V")).1.turnCount = 20
    ∧ (loopFn sampleState sampleResp sampleTime
        (Except.ok "V")).2.count Ev.synthCall = 1 :=
  c2_turn_cap.2.2 sampleState sampleResp sampleTime (Except.ok "V") rfl rfl
    (fun i _ => by simp only [sampleResp]; decide)

/-- C3: the termination check reads the raw pre-strip gateway text.
First conjunct: when turn k (0-based) is the first turn whose raw text
contains the token and k is below the cap, the loop appends the entry
of that turn (with the token stripped from the stored content) and
stops, so the transcript holds exactly k + 1 entries.  Second conjunct: raw texts
without the token never stop the loop, which then runs to the cap. -/
theorem c3_termination_raw (active : List AIInstance) (n : Nat)
    (topic : String) (resp : Nat → String × Option (List GroundingChunk))
    (time : Nat → Nat) :
    (∀ k, k < MAX_TURNS n → includesToken (resp k).1 = true →
      (∀ i, i < k → includesToken (resp i).1 = false) →
      (loopGo active n topic resp time [] 0 none).cnt = k + 1
      ∧ (loopGo active n topic resp time [] 0 none).hist.length = k + 1
      ∧ ((loopGo active n topic resp time [] 0 none).hist.getD k
          defaultEntry).content = cleanResponse (resp k).1)
    ∧ ((∀ i, i < MAX_TURNS n → includesToken (resp i).1 = false) →
      (loopGo active n topic resp time [] 0 none).cnt = MAX_TURNS n) := by
  constructor
  · intro k hk htok hfirst
    have hcnt := loopGo_cnt_firstTok active n topic resp time [] 0 none k
      (Nat.zero_le _) hk htok (fun i _ hi => hfirst i hi)
    obtain ⟨hlen, -, -, -, h5⟩ :=
      loopGo_spec active n topic resp time [] 0 none rfl
    refine ⟨hcnt, by omega, ?_⟩
    rw [h5 k (Nat.zero_le _) (by omega)]
    rfl
  · intro hno
    have := loopGo_cnt_noTok active n topic resp time [] 0 none
      (fun i _ hi => hno i hi)
    simpa using this

/-- C3 witness: with the token first appearing in the raw text of turn 2
(council size 4), the loop stops with exactly 3 entries and the stored
content of the terminating turn is the stripped text. -/
theorem c3_termination_raw_witness :
    (loopGo (ALL_POTENTIAL_INSTANCES.take 4) 4 "T" sampleRespTok sampleTime
        [] 0 none).cnt = 3
    ∧ (loopGo (ALL_POTENTIAL_INSTANCES.take 4) 4 "T" sampleRespTok sampleTime
        [] 0 none).hist.length = 3
    ∧ ((loopGo (ALL_POTENTIAL_INSTANCES.take 4) 4 "T" sampleRespTok sampleTime
        [] 0 none).hist.getD 2 defaultEntry).content
      = cleanResponse (sampleRespTok 2).1 :=
  (c3_termination_raw (ALL_POTENTIAL_INSTANCES.take 4) 4 "T" sampleRespTok
    sampleTime).1 2 (by decide) (by decide)
    (fun i hi => by
      match i, hi with
      | 0, _ => decide
      | 1, _ => decide)

/-- C5: each loop iteration appends exactly one transcript entry and
increments the turn counter exactly once, so starting from a state
satisfying the invariant, the snapshot taken immediately after each
completed turn has transcript length equal to the turn counter, there
is one snapshot per executed turn, the j-th snapshot reads
(cnt + j + 1, cnt + j + 1), and the final state satisfies the invariant
again, for every sequence of gateway outcomes. -/
theorem c5_transcript_invariant (active : List AIInstance) (n : Nat)
    (topic : String) (resp : Nat → String × Option (List GroundingChunk))
    (time : Nat → Nat) (hist : List DialogueEntry) (cnt : Nat)
    (act : Option String) (hlen : hist.length = cnt) :
    (∀ p ∈ (loopGo active n topic resp time hist cnt act).snaps, p.1 = p.2)
    ∧ (loopGo active n topic resp time hist cnt act).snaps.length
        = (loopGo active n topic resp time hist cnt act).cnt - cnt
    ∧ (∀ j, j < (loopGo active n topic resp time hist cnt act).snaps.length →
        (loopGo active n topic resp time hist cnt act).snaps.getD j (0, 0)
          = (cnt + j + 1, cnt + j + 1))
    ∧ (loopGo active n topic resp time hist cnt act).hist.length
        = (loopGo active n topic resp time hist cnt act).cnt := by
  obtain ⟨hslen, hsget⟩ := loopGo_snaps_spec active n topic resp time hist cnt act
  obtain ⟨hinv, -, -, -, -⟩ := loopGo_spec active n topic resp time hist cnt act hlen
  have hget : ∀ j, j < (loopGo active n topic resp time hist cnt act).snaps.length →
      (loopGo active n topic resp time hist cnt act).snaps.getD j (0, 0)
        = (cnt + j + 1, cnt + j + 1) := by
    intro j hj
    rw [hsget j hj, hlen]
  refine ⟨?_, hslen, hget, hinv⟩
  intro p hp
  obtain ⟨j, hj, hjp⟩ := List.mem_iff_getElem.mp hp
  have := hget j hj
  rw [List.getD_eq_getElem _ _ hj, hjp] at this
  rw [this]

/-- C5 witness: on the fresh size-4 session with a token-free oracle,
the fourth snapshot is (4, 4) and the final transcript length equals the
final counter. -/
theorem c5_transcript_invariant_witness :
    (loopGo (ALL_POTENTIAL_INSTANCES.take 4) 4 "T" sampleResp sampleTime
        [] 0 none).snaps.getD 3 (0, 0) = (4, 4)
    ∧ (loopGo (ALL_POTENTIAL_INSTANCES.take 4) 4 "T" sampleResp sampleTime
        [] 0 none).hist.length
      = (loopGo (ALL_POTENTIAL_INSTANCES.take 4) 4 "T" sampleResp sampleTime
        [] 0 none).cnt :=
  ⟨(c5_transcript_invariant (ALL_POTENTIAL_INSTANCES.take 4) 4 "T" sampleResp
      sampleTime [] 0 none rfl).2.2.1 3 (by decide),
   (c5_transcript_invariant (ALL_POTENTIAL_INSTANCES.take 4) 4 "T" sampleResp
      sampleTime [] 0 none rfl).2.2.2⟩

/-- C4 counterexample: the content cleaner is NOT idempotent on every
input, because JS String.replace with a string pattern removes only the
first occurrence of the token.  On two adjacent tokens, one application
leaves one token behind and a second application removes it. -/
theorem c4_strip_counterexample :
    ¬ (cleanResponse (cleanResponse
        "[TERMINATE_DELIBERATION][TERMINATE_DELIBERATION]")
      = cleanResponse "[TERMINATE_DELIBERATION][TERMINATE_DELIBERATION]") := by
  decide

/-- C4 (amended): the content cleaner removes the first occurrence of
the exact case-sensitive token anywhere in the text and trims
whitespace.  Applying it twice equals applying it once for every input
whose once-cleaned text no longer contains the token; the input
X [TERMINATE_DELIBERATION] yields the stored content X; and any input
not containing the token is stored unchanged up to trimming. -/
theorem c4_strip_amended :
    (∀ s : String,
      containsL TERMINATE_SIGNAL.data (cleanResponse s).data = false →
      cleanResponse (cleanResponse s) = cleanResponse s)
    ∧ cleanResponse "X [TERMINATE_DELIBERATION]" = "X"
    ∧ (∀ s : String, containsL TERMINATE_SIGNAL.data s.data = false →
      (cleanResponse s).data = trimL s.data) :=
  ⟨cleanResponse_idem_of_no_token, by decide, cleanResponse_data_of_no_token⟩

/-- C4 witness: the cleaner is idempotent on a one-token input (whose
cleaned text is token-free) and only trims a token-free input. -/
theorem c4_strip_amended_witness :
    cleanResponse (cleanResponse "All agreed. [TERMINATE_DELIBERATION]")
      = cleanResponse "All agreed. [TERMINATE_DELIBERATION]"
    ∧ (cleanResponse "  All agreed.  ").data = trimL "  All agreed.  ".data :=
  ⟨c4_strip_amended.1 "All agreed. [TERMINATE_DELIBERATION]" (by decide),
   c4_strip_amended.2.2 "  All agreed.  " (by decide)⟩

/-- C6: per-turn failure and fallback policy of getAIResponse (the full
variant).  When the primary call throws: an agent not on the designated
fallback model triggers exactly one retry, against the fallback model
with the search tool disabled, and if that retry also throws the
returned text is the marked failure entry for the node; an agent
already on the fallback model triggers no second call and yields the
marked communication-severed failure entry.  In every case the function
returns a value, so no error reaches the deliberation loop. -/
theorem c6_fallback_policy (env : String → Bool → CallOutcome)
    (inst : AIInstance) (hfail : env inst.model true = CallOutcome.throw) :
    (inst.model ≠ FALLBACK_MODEL →
      (getAIResponse env inst).2
        = [⟨inst.model, true⟩, ⟨FALLBACK_MODEL, false⟩]
      ∧ (env FALLBACK_MODEL false = CallOutcome.throw →
          (getAIResponse env inst).1.1
            = "Protocol failure on node: " ++ inst.name))
    ∧ (inst.model = FALLBACK_MODEL →
      (getAIResponse env inst).2 = [⟨inst.model, true⟩]
      ∧ (getAIResponse env inst).1.1
          = "Error: Communication link severed for node " ++ inst.name) := by
  constructor
  · intro hne
    constructor
    · cases henv : env FALLBACK_MODEL false with
      | throw => simp [getAIResponse, hfail, henv, hne]
      | reply t g => simp [getAIResponse, hfail, henv, hne]
    · intro hthrow
      simp [getAIResponse, hfail, hthrow, hne]
  · intro heq
    rw [heq] at hfail
    constructor
    · simp [getAIResponse, hfail, heq]
    · simp [getAIResponse, hfail, heq]

/-- C6 witness: with every call throwing, the non-fallback agent makes
exactly the primary call plus one search-disabled fallback call and
returns the marked failure text. -/
theorem c6_fallback_policy_witness :
    (getAIResponse sampleEnvThrow sampleInstance).2
      = [⟨"gemini-3-pro-preview", true⟩, ⟨FALLBACK_MODEL, false⟩]
    ∧ (getAIResponse sampleEnvThrow sampleInstance).1.1
      = "Protocol failure on node: INSTANCE_03" :=
  ⟨((c6_fallback_policy sampleEnvThrow sampleInstance rfl).1 (by decide)).1,
   ((c6_fallback_policy sampleEnvThrow sampleInstance rfl).1 (by decide)).2 rfl⟩

/-- C7: for every outcome of the synthesis stage, finalizeSynthesis
moves the session to concluded with a verdict set, never leaving it
running; a thrown synthesis failure yields the fixed error-indicating
verdict and a success stores the produced verdict. -/
theorem c7_synthesis_concludes (st : SessionState)
    (synth : Except Unit String) :
    (finalizeSynthesis st synth).1.status = DeliberationStatus.concluded
    ∧ (finalizeSynthesis st synth).1.verdict.isSome = true
    ∧ (finalizeSynthesis st synth).1.status ≠ DeliberationStatus.running
    ∧ (synth = Except.error () →
        (finalizeSynthesis st synth).1.verdict
          = some "Critical error during synthesis phase.")
    ∧ (∀ v, synth = Except.ok v →
        (finalizeSynthesis st synth).1.verdict = some v) := by
  cases synth with
  | ok v =>
    refine ⟨rfl, rfl, by simp [finalizeSynthesis], ?_, ?_⟩
    · intro h
      cases h
    · intro w hw
      cases hw
      rfl
  | error e =>
    refine ⟨rfl, rfl, by simp [finalizeSynthesis], fun _ => rfl, ?_⟩
    intro w hw
    cases hw

/-- C7 witness: a thrown synthesis still concludes the sample session
with the error-indicating verdict. -/
theorem c7_synthesis_concludes_witness :
    (finalizeSynthesis sampleState (Except.error ())).1.status
      = DeliberationStatus.concluded
    ∧ (finalizeSynthesis sampleState (Except.error ())).1.verdict
      = some "Critical error during synthesis phase." :=
  ⟨(c7_synthesis_concludes sampleState (Except.error ())).1,
   (c7_synthesis_concludes sampleState (Except.error ())).2.2.2.1 rfl⟩

/-- C8 counterexample: the claim fails for the reserved topic
5090 giveaway, which is non-empty and submitted while no deliberation
runs, yet start leaves the session idle and merely opens the dev menu
instead of transitioning to running. -/
theorem c8_start_counterexample :
    (runExperiment giveawayState none sampleResp sampleTime
        (Except.ok "V")).1.status = DeliberationStatus.idle
    ∧ (runExperiment giveawayState none sampleResp sampleTime
        (Except.ok "V")).1.status ≠ DeliberationStatus.running
    ∧ (runExperiment giveawayState none sampleResp sampleTime
        (Except.ok "V")).1.isDevMenuOpen = true
    ∧ giveawayState.isRunning = false
    ∧ jsTrim giveawayState.topicInput ≠ "" := by
  decide

/-- C8 (amended): for every raw topic that is non-empty after trimming
and is not the reserved easter-egg command 5090 giveaway (compared
after trim and toLowerCase), submitted while no deliberation is
running, start transitions the machine to running having cleared the
transcript, reset the turn counter to 0 and cleared the verdict, and
the topic-refinement step completes before the first turn: the loop
receives the refined topic and every gateway turn call of the run
carries it. -/
theorem c8_start_amended (st : SessionState) (eng : Option (Option String))
    (resp : Nat → String × Option (List GroundingChunk)) (time : Nat → Nat)
    (synth : Except Unit String)
    (hrun : st.isRunning = false) (hst : st.status = DeliberationStatus.idle)
    (hne : jsTrim st.topicInput ≠ "")
    (hegg : jsToLower (jsTrim st.topicInput) ≠ "5090 giveaway") :
    runExperiment st eng resp time synth
      = ((loopFn (startedState st eng) resp time synth).1,
         [Ev.setStatus .running, Ev.engineerStart, Ev.engineerEnd]
           ++ (loopFn (startedState st eng) resp time synth).2)
    ∧ (startedState st eng).status = DeliberationStatus.running
    ∧ (startedState st eng).history = []
    ∧ (startedState st eng).turnCount = 0
    ∧ (startedState st eng).verdict = none
    ∧ (startedState st eng).optimizedTopic
        = promptEngineerTopic eng st.topicInput
    ∧ (∀ t i tp,
        Ev.turnCall t i tp ∈ (runExperiment st eng resp time synth).2 →
        tp = promptEngineerTopic eng st.topicInput) := by
  have hEq : runExperiment st eng resp time synth
      = ((loopFn (startedState st eng) resp time synth).1,
         [Ev.setStatus .running, Ev.engineerStart, Ev.engineerEnd]
           ++ (loopFn (startedState st eng) resp time synth).2) := by
    unfold runExperiment
    rw [hrun, if_neg (by simp [hne]), if_neg hegg]
  refine ⟨hEq, rfl, rfl, rfl, rfl, rfl, ?_⟩
  intro t i tp hmem
  rw [hEq] at hmem
  simp only [List.cons_append, List.nil_append, List.mem_cons] at hmem
  rcases hmem with h | h | h | hmem
  · cases h
  · cases h
  · cases h
  · rw [loopFn_events] at hmem
    rw [List.mem_append] at hmem
    rcases hmem with hmem | hmem
    · rcases loopGo_events_spec _ _ _ resp time _ _ _ _ hmem
        with h | ⟨i', _, _, h | h⟩
      · cases h
      · cases h
      · cases h
        rfl
    · simp at hmem

/-- C8 witness: on the sample session with a successful refinement
oracle, turn 0 of the run calls the gateway with the refined topic. -/
theorem c8_start_amended_witness :
    "Refined objective."
      = promptEngineerTopic (some (some "Refined objective."))
          sampleState.topicInput :=
  (c8_start_amended sampleState (some (some "Refined objective."))
      sampleResp sampleTime (Except.ok "V") rfl rfl (by decide)
      (by decide)).2.2.2.2.2.2 0 "1" "Refined objective." (by decide)

/-- C9: the synthesis stage builds one prompt from the refined topic
and the full transcript rendered as name: content pairs joined by two
newlines in transcript order (every candidate call carries exactly that
prompt), and attempts the candidate models in order, returning the text
and model of the first candidate whose call returns non-empty text,
with the fixed all-failed error when every candidate is exhausted. -/
theorem c9_synthesis_stage (env : String → String → Option (Option String))
    (priority : List String) (topic : String)
    (history : List DialogueEntry) :
    (∀ c ∈ (getFinalSynthesis env priority topic history).2,
      c.2 = SYNTHESIS_PROMPT topic
        (String.intercalate "\n\n"
          (history.map fun h => h.authorName ++ ": " ++ h.content)))
    ∧ (∀ k t, k < priority.length →
        truthyText (env (priority.getD k "")
            (SYNTHESIS_PROMPT topic (synthHistoryText history))) = some t →
        (∀ j, j < k →
          truthyText (env (priority.getD j "")
            (SYNTHESIS_PROMPT topic (synthHistoryText history))) = none) →
        (getFinalSynthesis env priority topic history).1
            = Except.ok (t, priority.getD k "")
        ∧ (getFinalSynthesis env priority topic history).2.map Prod.fst
            = priority.take (k + 1))
    ∧ ((∀ j, j < priority.length →
          truthyText (env (priority.getD j "")
            (SYNTHESIS_PROMPT topic (synthHistoryText history))) = none) →
        (getFinalSynthesis env priority topic history).1
          = Except.error "All available synthesis models failed to respond.") := by
  refine ⟨?_, ?_, ?_⟩
  · intro c hc
    exact synthGo_calls env _ priority c hc
  · intro k t hk hsucc hprev
    exact synthGo_first_success env _ priority k t hk hsucc hprev
  · intro hall
    exact synthGo_all_fail env _ priority hall

/-- C9 witness: with the first candidate failing and the second
returning text, synthesis returns the text and model of the second candidate
after attempting exactly the first two candidates in order. -/
theorem c9_synthesis_stage_witness :
    (getFinalSynthesis sampleSynthEnv samplePriority "T" []).1
      = Except.ok ("FINAL VERDICT: proceed.", samplePriority.getD 1 "")
    ∧ (getFinalSynthesis sampleSynthEnv samplePriority "T" []).2.map Prod.fst
      = samplePriority.take 2 :=
  (c9_synthesis_stage sampleSynthEnv samplePriority "T" []).2.1 1
    "FINAL VERDICT: proceed." (by decide) (by decide)
    (fun j hj => by
      match j, hj with
      | 0, _ => decide)

/-- C10: over a full loop-plus-synthesis run on the fixed roster, every
active-agent pointer update is null, a roster agent id, or the sentinel
SYNT; roster ids are exactly the decimal strings of 1 through 50 and
never SYNT; the trace ends with the five synthesis events in which SYNT
is set immediately before the synthesis call and cleared right after it
concludes, while the loop itself never sets SYNT; the final state has a
null pointer, and reset also nulls the pointer and returns to idle. -/
theorem c10_active_agent (st : SessionState)
    (resp : Nat → String × Option (List GroundingChunk)) (time : Nat → Nat)
    (synth : Except Unit String)
    (hinst : st.instances = ALL_POTENTIAL_INSTANCES)
    (h1 : 1 ≤ st.instanceCount) (h50 : st.instanceCount ≤ 50) :
    (∀ a, Ev.setActive a ∈ (loopFn st resp time synth).2 →
      a = none ∨ a = some "SYNT"
        ∨ ∃ inst ∈ ALL_POTENTIAL_INSTANCES, a = some inst.id)
    ∧ (∀ inst ∈ ALL_POTENTIAL_INSTANCES, inst.id ≠ "SYNT")
    ∧ (∀ inst ∈ ALL_POTENTIAL_INSTANCES, ∃ k, k < 50
        ∧ inst.id = toString (k + 1))
    ∧ (loopFn st resp time synth).2
      = (loopGo (st.instances.take st.instanceCount) st.instanceCount
          st.optimizedTopic resp time st.history st.turnCount
          st.activeInstanceId).events
        ++ [Ev.setStatus .running, Ev.setActive (some "SYNT"), Ev.synthCall,
            Ev.setStatus .concluded, Ev.setActive none]
    ∧ (∀ a, Ev.setActive a
        ∈ (loopGo (st.instances.take st.instanceCount) st.instanceCount
            st.optimizedTopic resp time st.history st.turnCount
            st.activeInstanceId).events → a ≠ some "SYNT")
    ∧ (loopFn st resp time synth).1.activeInstanceId = none
    ∧ (resetExperiment st).activeInstanceId = none
    ∧ (resetExperiment st).status = DeliberationStatus.idle := by
  have hids : ∀ inst ∈ ALL_POTENTIAL_INSTANCES, inst.id ≠ "SYNT" := by decide
  have hloopA : ∀ a, Ev.setActive a
      ∈ (loopGo (st.instances.take st.instanceCount) st.instanceCount
          st.optimizedTopic resp time st.history st.turnCount
          st.activeInstanceId).events →
      ∃ inst ∈ ALL_POTENTIAL_INSTANCES, a = some inst.id := by
    intro a hmemA
    rcases loopGo_events_spec (st.instances.take st.instanceCount)
      st.instanceCount st.optimizedTopic resp time st.history st.turnCount
      st.activeInstanceId (Ev.setActive a) hmemA with h | ⟨i, _, _, h | h⟩
    · cases h
    · cases h
      have hm : (st.instances.take st.instanceCount).getD
          (i % st.instanceCount) defaultInstance ∈ ALL_POTENTIAL_INSTANCES := by
        rw [hinst]
        exact take_getD_mem ALL_POTENTIAL_INSTANCES st.instanceCount i h1
          (by rw [ALL_POTENTIAL_INSTANCES_length]; exact h50)
      exact ⟨_, hm, rfl⟩
    · cases h
  refine ⟨?_, hids, ?_, loopFn_events st resp time synth, ?_,
    (loopFn_state st resp time synth).2.1, rfl, rfl⟩
  · intro a hmemA
    rw [loopFn_events st resp time synth] at hmemA
    rw [List.mem_append] at hmemA
    rcases hmemA with hmemA | hmemA
    · exact Or.inr (Or.inr (hloopA a hmemA))
    · simp only [List.mem_cons, List.mem_singleton, List.not_mem_nil] at hmemA
      rcases hmemA with h | h | h | h | h
      · cases h
      · cases h
        exact Or.inr (Or.inl rfl)
      · cases h
      · cases h
      · rcases h with h | h
        · cases h
          exact Or.inl rfl
        · cases h
  · intro inst hmemI
    simp only [ALL_POTENTIAL_INSTANCES, List.mem_map, List.mem_range] at hmemI
    obtain ⟨k, hk, rfl⟩ := hmemI
    exact ⟨k, hk, rfl⟩
  · intro a hmemA heq
    obtain ⟨inst, hmemI, rfl⟩ := hloopA a hmemA
    have := hids inst hmemI
    simp only [Option.some.injEq] at heq
    exact this heq

/-- C10 witness: on the sample session the run ends with a null active
pointer and reset yields idle with a null pointer. -/
theorem c10_active_agent_witness :
    (loopFn sampleState sampleResp sampleTime
        (Except.ok "V")).1.activeInstanceId = none
    ∧ (resetExperiment sampleState).activeInstanceId = none
    ∧ (resetExperiment sampleState).status = DeliberationStatus.idle :=
  ⟨(c10_active_agent sampleState sampleResp sampleTime (Except.ok "V") rfl
      (by decide) (by decide)).2.2.2.2.2.1,
   (c10_active_agent sampleState sampleResp sampleTime (Except.ok "V") rfl
      (by decide) (by decide)).2.2.2.2.2.2.1,
   (c10_active_agent sampleState sampleResp sampleTime (Except.ok "V") rfl
      (by decide) (by decide)).2.2.2.2.2.2.2⟩

end AICouncil
